import Mathlib

/-!
Verification of the Vedic-astrology computation core of
`src/app/Jathakam/page.tsx` (ChandraPrabhaAstro2).

The engine is a pure function of numeric inputs (ecliptic longitudes in
degrees).  JavaScript numbers are modelled as exact rationals `ℚ`; every
longitude that reaches the classifiers is finite, and "absent or
non-finite" inputs are modelled as `Option.none`.  The JS remainder
operator `%` (sign of the dividend, truncated division) is modelled by
`jsMod`, and `Math.floor` by `Int.floor` on `ℚ`.
-/

namespace Jathakam

/-- Truncation of a rational toward zero, as performed by JS division
underlying the `%` operator. -/
def rtrunc (q : ℚ) : ℤ := if 0 ≤ q then ⌊q⌋ else ⌈q⌉

/-- The JS remainder operator `x % y`: `x - y * trunc (x / y)`
(result carries the sign of the dividend). -/
def jsMod (x y : ℚ) : ℚ := x - y * (rtrunc (x / y) : ℚ)

/-- `norm360` from the source: `((x % 360) + 360) % 360`. -/
def norm360 (x : ℚ) : ℚ := jsMod (jsMod x 360 + 360) 360

/-! ### Sign tables and varga mappers (source lines 64–212) -/

/-- `SIGNS`: the 12 zodiacal sign names, Aries first. -/
def SIGNS : List String :=
  ["Aries", "Taurus", "Gemini", "Cancer", "Leo", "Virgo",
   "Libra", "Scorpio", "Sagittarius", "Capricorn", "Aquarius", "Pisces"]

/-- `signIndex`: `Math.floor(norm360(deg) / 30)`.  The result is a
nonnegative integer below 12, so we expose it as `ℕ`. -/
def signIndex (deg : ℚ) : ℕ := (⌊norm360 deg / 30⌋).toNat

/-- `ODD = (s) => s % 2 === 0` — Aries (index 0) counts as an "odd" sign
in the 1-based convention. -/
def ODD (s : ℕ) : Bool := s % 2 == 0

/-- Sign qualities. -/
inductive Quality where
  | movable
  | fixed
  | dual
deriving DecidableEq

/-- `QUALITY`: the 12-entry movable/fixed/dual table of the source. -/
def QUALITY : List Quality :=
  [.movable, .fixed, .dual, .movable, .fixed, .dual,
   .movable, .fixed, .dual, .movable, .fixed, .dual]

/-- `horaSign` (D2): odd sign 0–15 → Leo(4), 15–30 → Cancer(3);
even sign reversed. -/
def horaSign (s : ℕ) (within : ℚ) : ℕ :=
  let first := within < 15
  if ODD s then (if first then 4 else 3)
  else (if first then 3 else 4)

/-- `drekkanaSign` (D3): part `p = floor(within / 10)`, offset
`[0,4,8][p]`, target `(s + offset) % 12`.  The source's array lookup is
defined only for `p ∈ {0,1,2}`, guaranteed by the `within ∈ [0,30)`
contract; `getD` with default 0 stands in for it. -/
def drekkanaSign (s : ℕ) (within : ℚ) : ℕ :=
  let p := (⌊within / 10⌋).toNat
  (s + [0, 4, 8].getD p 0) % 12

/-- `saptamsaSign` (D7): part `p = floor(within / (30/7))`; base is the
sign itself for an odd sign, the 7th from it otherwise. -/
def saptamsaSign (s : ℕ) (within : ℚ) : ℕ :=
  let p := (⌊within / (30 / 7)⌋).toNat
  let base := if ODD s then s else (s + 6) % 12
  (base + p) % 12

/-- `navamsaSign` (D9): part `p = floor(within / (30/9))`; base from the
sign's quality (movable → itself, fixed → 9th, dual → 5th).
`QUALITY[s]` is defined for `s ∈ 0..11`; `getD` with default
`.movable` stands in for the source's array lookup. -/
def navamsaSign (s : ℕ) (within : ℚ) : ℕ :=
  let p := (⌊within / (30 / 9)⌋).toNat
  let q := QUALITY.getD s .movable
  let base := if q = .movable then s else if q = .fixed then (s + 8) % 12 else (s + 4) % 12
  (base + p) % 12

/-- `dasamsaSign` (D10): part `p = floor(within / 3)`; base is the sign
itself for an odd sign, the 9th from it otherwise. -/
def dasamsaSign (s : ℕ) (within : ℚ) : ℕ :=
  let p := (⌊within / 3⌋).toNat
  let base := if ODD s then s else (s + 8) % 12
  (base + p) % 12

/-- `dwadasamsaSign` (D12): part `p = floor(within / 2.5)`,
target `(s + p) % 12`. -/
def dwadasamsaSign (s : ℕ) (within : ℚ) : ℕ :=
  let p := (⌊within / (5 / 2)⌋).toNat
  (s + p) % 12

/-- `trimshamsaSign` (D30, Parashara): irregular degree bands
(5, 5, 8, 7, 5) with distinct target sequences for odd and even signs. -/
def trimshamsaSign (s : ℕ) (within : ℚ) : ℕ :=
  if ODD s then
    if within < 5 then 0        -- Aries
    else if within < 10 then 10 -- Aquarius
    else if within < 18 then 8  -- Sagittarius
    else if within < 25 then 2  -- Gemini
    else 6                      -- Libra
  else
    if within < 5 then 7        -- Scorpio
    else if within < 10 then 9  -- Capricorn
    else if within < 18 then 11 -- Pisces
    else if within < 25 then 5  -- Virgo
    else 1                      -- Taurus

/-! ### Varga placement table (source lines 215–262)

A `positions` record is modelled as an association list
`List (String × Option ℚ)`: a body absent from the list is an absent
key (`positions[name]` is `undefined` in JS), and a `none` value is a
present but non-finite longitude.  Both fail `Number.isFinite` and are
treated alike.  The ascendant is passed separately and may itself be
non-finite, hence `Option ℚ`. -/

/-- The fixed body list of `vargaPlacements`. -/
def BODIES : List String :=
  ["Ascendant", "Sun", "Moon", "Mercury", "Venus", "Mars", "Jupiter",
   "Saturn", "Rahu", "Ketu", "Uranus", "Neptune", "Pluto"]

/-- One row of the varga table (sign names only). -/
structure VargaRow where
  body : String
  D1 : String
  D2 : String
  D3 : String
  D7 : String
  D9 : String
  D10 : String
  D12 : String
  D30 : String
deriving DecidableEq

/-- The local `getDeg` of `vargaPlacements`: the ascendant comes from
its own field, every other body from the positions record; `none`
encodes the `Number.isFinite` failure. -/
def getDeg (positions : List (String × Option ℚ)) (asc : Option ℚ)
    (name : String) : Option ℚ :=
  if name = "Ascendant" then asc else (positions.lookup name).bind id

/-- Row construction for one body with a finite longitude `deg`
(the body of the `map` in the source). -/
def vargaRow (b : String) (deg : ℚ) : VargaRow :=
  let s := signIndex deg
  let within := jsMod (norm360 deg) 30
  { body := b
    D1 := SIGNS.getD s ""
    D2 := SIGNS.getD (horaSign s within) ""
    D3 := SIGNS.getD (drekkanaSign s within) ""
    D7 := SIGNS.getD (saptamsaSign s within) ""
    D9 := SIGNS.getD (navamsaSign s within) ""
    D10 := SIGNS.getD (dasamsaSign s within) ""
    D12 := SIGNS.getD (dwadasamsaSign s within) ""
    D30 := SIGNS.getD (trimshamsaSign s within) "" }

/-- `vargaPlacements`: map each fixed body to its row, dropping bodies
whose longitude is absent or non-finite (`map` + `filter(Boolean)` in
the source is `filterMap` here). -/
def vargaPlacements (positions : List (String × Option ℚ))
    (asc : Option ℚ) : List VargaRow :=
  BODIES.filterMap fun b => (getDeg positions asc b).map (vargaRow b)

/-! ### Nakshatra resolver (source lines 381–491) -/

/-- `NAK_NAMES`: the 27 nakshatra names. -/
def NAK_NAMES : List String :=
  ["Ashwini", "Bharani", "Krittika", "Rohini", "Mrigashira", "Ardra",
   "Punarvasu", "Pushya", "Ashlesha", "Magha", "Purva Phalguni",
   "Uttara Phalguni", "Hasta", "Chitra", "Swati", "Vishakha",
   "Anuradha", "Jyeshtha", "Mula", "Purva Ashadha", "Uttara Ashadha",
   "Shravana", "Dhanishta", "Shatabhisha", "Purva Bhadrapada",
   "Uttara Bhadrapada", "Revati"]

/-- `LORD_SEQ`: the 9-element cycling sequence of ruling lords. -/
def LORD_SEQ : List String :=
  ["Ketu", "Venus", "Sun", "Moon", "Mars", "Rahu", "Jupiter", "Saturn",
   "Mercury"]

/-- `DEG_PER_NAK = 360 / 27`. -/
def DEG_PER_NAK : ℚ := 360 / 27

/-- `DEG_PER_PADA = DEG_PER_NAK / 4` (3°20′). -/
def DEG_PER_PADA : ℚ := DEG_PER_NAK / 4

/-- The record returned by `nakForDeg`. -/
structure NakInfo where
  index : ℕ
  name : String
  pada : ℕ
  lord : String
deriving DecidableEq

/-- `nakForDeg`: nakshatra index, name, pada and lord of a longitude. -/
def nakForDeg (deg : ℚ) : NakInfo :=
  let L := norm360 deg
  let idx := (⌊L / DEG_PER_NAK⌋).toNat
  let within := L - idx * DEG_PER_NAK
  let pada := (⌊within / DEG_PER_PADA⌋).toNat + 1
  { index := idx
    name := NAK_NAMES.getD idx ""
    pada := pada
    lord := LORD_SEQ.getD (idx % 9) "" }

/-! ### Panchanga (source lines 423–531)

`panchangaFrom(out)` returns `null` when `out` is `null` or when the
Sun or Moon longitude fails `Number.isFinite`; otherwise it builds the
full five-limb record.  The numeric core is modelled here on the Sun
and Moon longitudes (`none` = absent or non-finite, covering both the
`out === null` and the `Number.isFinite` guards).  The `vara` limb is
produced by `Intl.DateTimeFormat` from the reference instant and
timezone — an external, non-numeric dependency — so the already
formatted weekday string is passed in abstractly. -/

/-- `TITHI_15`: the 15-entry tithi name table. -/
def TITHI_15 : List String :=
  ["Pratipada", "Dvitiya", "Tritiya", "Chaturthi", "Panchami",
   "Shashthi", "Saptami", "Ashtami", "Navami", "Dashami", "Ekadashi",
   "Dwadashi", "Trayodashi", "Chaturdashi", "Purnima"]

/-- `TITHI_15_KRISHNA_LAST`. -/
def TITHI_15_KRISHNA_LAST : String := "Amavasya"

/-- `YOGAS_27`: the 27 yoga names. -/
def YOGAS_27 : List String :=
  ["Vishkumbha", "Preeti", "Ayushman", "Saubhagya", "Shobhana",
   "Atiganda", "Sukarma", "Dhriti", "Shoola", "Ganda", "Vriddhi",
   "Dhruva", "Vyaghata", "Harshana", "Vajra", "Siddhi", "Vyatipata",
   "Variyan", "Parigha", "Shiva", "Siddha", "Sadhya", "Shubha",
   "Shukla", "Brahma", "Indra", "Vaidhriti"]

/-- `KARANA_ROT`: the 7-entry rotating karana table. -/
def KARANA_ROT : List String :=
  ["Bava", "Balava", "Kaulava", "Taitila", "Garaja", "Vanija",
   "Vishti"]

/-- `KARANA_END`: the fixed 3-entry ending karana table. -/
def KARANA_END : List String := ["Shakuni", "Chatushpada", "Naga"]

/-- The record returned by `panchangaFrom`. -/
structure Panchanga where
  vara : String
  tithiNum : ℕ
  tithiName : String
  paksha : String
  nakshatra : String
  pada : ℕ
  yoga : String
  karana : String
deriving DecidableEq

/-- `panchangaFrom`, numeric core: `sun`/`moon` are the looked-up
longitudes (`none` = absent or non-finite), `vara` the externally
formatted weekday. -/
def panchangaFrom (sun moon : Option ℚ) (vara : String) :
    Option Panchanga :=
  match sun, moon with
  | some sun, some moon =>
    let diff := norm360 (moon - sun)
    let tithiNum := (⌊diff / 12⌋).toNat + 1 -- 1..30
    let paksha := if tithiNum ≤ 15 then "Shukla" else "Krishna"
    let idx15 := (tithiNum - 1) % 15
    let tithiName :=
      if paksha = "Shukla" then TITHI_15.getD idx15 ""
      else if idx15 = 14 then TITHI_15_KRISHNA_LAST
      else TITHI_15.getD idx15 ""
    let nk := nakForDeg moon
    let yogaAngle := norm360 (moon + sun)
    let yogaIdx := (⌊yogaAngle / DEG_PER_NAK⌋).toNat
    let karIdx := (⌊diff / 6⌋).toNat
    let karanaName :=
      if karIdx = 0 then "Kimstughna"
      else if 57 ≤ karIdx then KARANA_END.getD (karIdx - 57) ""
      else KARANA_ROT.getD ((karIdx - 1) % 7) ""
    some { vara := vara
           tithiNum := tithiNum
           tithiName := tithiName
           paksha := paksha
           nakshatra := nk.name
           pada := nk.pada
           yoga := YOGAS_27.getD yogaIdx ""
           karana := karanaName }
  | _, _ => none

/-! ### Aspects (source lines 533–573) -/

/-- One entry of `ASPECTS_DEF`. -/
structure AspectDef where
  name : String
  angle : ℚ
  orb : ℚ
deriving DecidableEq

/-- `ASPECTS_DEF`: the fixed ordered aspect table. -/
def ASPECTS_DEF : List AspectDef :=
  [⟨"Conjunction", 0, 6⟩, ⟨"Opposition", 180, 6⟩, ⟨"Trine", 120, 5⟩,
   ⟨"Square", 90, 5⟩, ⟨"Sextile", 60, 4⟩]

/-- `angDiff`: angular distance of two longitudes, folded to the
shorter arc. -/
def angDiff (a b : ℚ) : ℚ :=
  let d := |norm360 a - norm360 b|
  min d (360 - d)

/-- One aspect record (`AspectPair` in the source). -/
structure AspectPair where
  a : String
  b : String
  type : String
  delta : ℚ
deriving DecidableEq

/-- `(x).toFixed(2)` with unary `+`: round to 2 decimal places, ties
to the larger value (ECMAScript `toFixed`). -/
def round2 (x : ℚ) : ℚ := (⌊x * 100 + 1 / 2⌋ : ℚ) / 100

/-- The loop body of `deriveAscAspects` for one `(name, longitude)`
entry: skip a non-finite longitude, otherwise try the aspect
definitions in order and stop at the first whose orb contains the
angular distance to the ascendant (the `break` is `List.find?`). -/
def ascAspectFor (asc : ℚ) (nd : String × Option ℚ) :
    Option AspectPair :=
  nd.2.bind fun deg =>
    let d := angDiff asc deg
    (ASPECTS_DEF.find? fun A => decide (|d - A.angle| ≤ A.orb)).map
      fun A =>
        { a := "Ascendant", b := nd.1, type := A.name,
          delta := round2 (d - A.angle) }

/-- `deriveAscAspects`: one optional record per positions entry.  The
positions record is the same association-list model as for
`vargaPlacements` (`Object.keys` enumerates the keys in order). -/
def deriveAscAspects (asc : ℚ) (positions : List (String × Option ℚ)) :
    List AspectPair :=
  positions.filterMap (ascAspectFor asc)

/-- The string key of `mergeAspects`: `[p.a, p.type, p.b].join('|')`. -/
def mkey (p : AspectPair) : String := p.a ++ "|" ++ p.type ++ "|" ++ p.b

/-- `Map.prototype.set` on an insertion-ordered association list: an
existing key keeps its position and gets the new value, a fresh key is
appended. -/
def msetLWW (m : List (String × AspectPair)) (k : String)
    (v : AspectPair) : List (String × AspectPair) :=
  if m.any fun e => decide (e.1 = k) then
    m.map fun e => if e.1 = k then (k, v) else e
  else m ++ [(k, v)]

/-- `mergeAspects`: insert `existing` then `ascOnes` into a Map keyed
by `mkey`, and return the values in Map iteration order. -/
def mergeAspects (existing ascOnes : List AspectPair) :
    List AspectPair :=
  let m₀ := existing.foldl (fun m p => msetLWW m (mkey p) p) []
  let m₁ := ascOnes.foldl (fun m p => msetLWW m (mkey p) p) m₀
  m₁.map fun e => e.2

/-- First value stored under Map key `k` (spec-side helper for stating
Map semantics). -/
def afind (m : List (String × AspectPair)) (k : String) :
    Option AspectPair :=
  (m.find? fun e => decide (e.1 = k)).map fun e => e.2

/-- The last record of `l` whose `mkey` is `k` (spec-side helper:
the value last-write-wins semantics must store under `k`). -/
def lastWithKey (l : List AspectPair) (k : String) : Option AspectPair :=
  (l.filter fun p => decide (mkey p = k)).getLast?

/-- Well-formedness of the association-list model of a JS Map keyed by
`mkey`: keys are distinct and each entry's key is its value's `mkey`. -/
def goodMap (m : List (String × AspectPair)) : Prop :=
  (m.map Prod.fst).Nodup ∧ ∀ e ∈ m, mkey e.2 = e.1

/-! ## Theorems -/

/-- On a nonnegative dividend and positive divisor, the JS remainder is
the ordinary floor-based remainder. -/
theorem jsMod_of_nonneg (x y : ℚ) (hx : 0 ≤ x) (hy : 0 < y) :
    jsMod x y = x - y * (⌊x / y⌋ : ℚ) := by
  unfold jsMod rtrunc
  rw [if_pos (div_nonneg hx hy.le)]

/-- The double-remainder trick of the source equals the canonical
representative of `x` modulo `360`. -/
theorem norm360_eq (x : ℚ) : norm360 x = x - 360 * (⌊x / 360⌋ : ℚ) := by
  unfold norm360 jsMod rtrunc
  have h1 : (⌊x / 360⌋ : ℚ) ≤ x / 360 := Int.floor_le (x / 360)
  have h2 : x / 360 ≤ (⌈x / 360⌉ : ℚ) := Int.le_ceil (x / 360)
  have h1m : 360 * (⌊x / 360⌋ : ℚ) ≤ x := by
    calc 360 * (⌊x / 360⌋ : ℚ) ≤ 360 * (x / 360) := by nlinarith
    _ = x := by field_simp
  have h1s : x < 360 * ((⌊x / 360⌋ : ℚ) + 1) := by
    have := Int.lt_floor_add_one (x / 360)
    calc x = 360 * (x / 360) := by field_simp
    _ < 360 * ((⌊x / 360⌋ : ℚ) + 1) := by nlinarith
  rcases le_or_lt 0 (x / 360) with h | h
  · rw [if_pos h]
    set t : ℚ := x - 360 * (⌊x / 360⌋ : ℚ) with ht
    have h0 : 0 ≤ t := by simp only [ht]; linarith
    have hlt : t < 360 := by simp only [ht]; linarith
    have hq : (0:ℚ) ≤ (t + 360) / 360 := by positivity
    rw [if_pos hq]
    have hfl : ⌊(t + 360) / 360⌋ = 1 := by
      rw [Int.floor_eq_iff]
      constructor
      · push_cast; rw [le_div_iff₀ (by norm_num : (0:ℚ) < 360)]; linarith
      · push_cast; rw [div_lt_iff₀ (by norm_num : (0:ℚ) < 360)]; linarith
    rw [hfl]; push_cast; ring
  · rw [if_neg (not_le.mpr h)]
    have hcf : ⌈x / 360⌉ ≤ ⌊x / 360⌋ + 1 := Int.ceil_le_floor_add_one (x / 360)
    have hfc : ⌊x / 360⌋ ≤ ⌈x / 360⌉ := Int.floor_le_ceil (x / 360)
    rcases (by omega : ⌈x / 360⌉ = ⌊x / 360⌋ ∨ ⌈x / 360⌉ = ⌊x / 360⌋ + 1) with
      hceq | hceq
    · -- x is an exact multiple of 360: both remainders vanish
      rw [hceq] at h2 ⊢
      have heqq : x / 360 = (⌊x / 360⌋ : ℚ) := le_antisymm h2 h1
      have hx : x = 360 * (⌊x / 360⌋ : ℚ) := by
        rw [← heqq]; field_simp
      have hstep : x - 360 * (⌊x / 360⌋ : ℚ) + 360 = 360 := by linarith
      rw [hstep]
      have hr : (0:ℚ) ≤ 360 / 360 := by norm_num
      rw [if_pos hr]
      have hfl : ⌊(360:ℚ) / 360⌋ = 1 := by norm_num
      rw [hfl]
      push_cast
      linarith
    · -- ceil is floor + 1; the shifted remainder lands in [0, 360)
      rw [hceq]
      have hstrict : x < 360 * (⌊x / 360⌋ : ℚ) + 360 := h1s.trans_le (by ring_nf; rfl)
      set t : ℚ := x - 360 * ((⌊x / 360⌋ : ℚ) + 1) + 360 with ht
      have hteq : x - 360 * ((⌊x / 360⌋ : ℤ) + 1 : ℤ) + 360 = t := by
        simp only [ht]; push_cast; ring
      rw [hteq]
      have h0 : 0 ≤ t := by simp only [ht]; linarith
      have hlt : t < 360 := by simp only [ht]; linarith
      have hq : (0:ℚ) ≤ t / 360 := by positivity
      rw [if_pos hq]
      have hfl : ⌊t / 360⌋ = 0 := by
        rw [Int.floor_eq_iff]
        constructor
        · push_cast; positivity
        · push_cast; rw [div_lt_iff₀ (by norm_num : (0:ℚ) < 360)]; linarith
      rw [hfl]
      simp only [ht]
      push_cast
      ring

theorem norm360_nonneg (x : ℚ) : 0 ≤ norm360 x := by
  rw [norm360_eq]
  have h := Int.floor_le (x / 360)
  have : (⌊x / 360⌋ : ℚ) * 360 ≤ x := by
    calc (⌊x / 360⌋ : ℚ) * 360 ≤ (x / 360) * 360 := by nlinarith
    _ = x := by field_simp
  linarith

theorem norm360_lt (x : ℚ) : norm360 x < 360 := by
  rw [norm360_eq]
  have h := Int.lt_floor_add_one (x / 360)
  have : x < ((⌊x / 360⌋ : ℚ) + 1) * 360 := by
    calc x = (x / 360) * 360 := by field_simp
    _ < ((⌊x / 360⌋ : ℚ) + 1) * 360 := by nlinarith
  linarith



/-- C3: the nakshatra resolver maps longitude 0° to index 0
("Ashwini"), pada 1, lord "Ketu", and a longitude of exactly one span
(360/27 degrees, the value the spec prints as 13.3333°) to index 1
("Bharani"). -/
theorem nakshatra_boundaries :
    nakForDeg 0 = ⟨0, "Ashwini", 1, "Ketu"⟩ ∧
    (nakForDeg (360 / 27)).index = 1 ∧
    (nakForDeg (360 / 27)).name = "Bharani" := by
  refine ⟨?_, ?_, ?_⟩ <;>
    norm_num [nakForDeg, norm360_eq, DEG_PER_NAK, DEG_PER_PADA,
      NAK_NAMES, LORD_SEQ, NakInfo.mk.injEq]

/-- C7: under the convention that a sign is "odd" exactly when its
zero-based index is even, the D2 (hora) mapping sends, for every odd
sign, within-sign degrees in [0,15) to Leo (4) and degrees in [15,30)
to Cancer (3), and for every even sign the reverse; the part offset
plays no role. -/
theorem hora_parity (s : ℕ) (w : ℚ) :
    (s % 2 = 0 →
      (0 ≤ w → w < 15 → horaSign s w = 4) ∧
      (15 ≤ w → w < 30 → horaSign s w = 3)) ∧
    (s % 2 = 1 →
      (0 ≤ w → w < 15 → horaSign s w = 3) ∧
      (15 ≤ w → w < 30 → horaSign s w = 4)) := by
  constructor
  · intro hpar
    have hodd : ODD s = true := by simp [ODD, hpar]
    constructor
    · intro _ hw
      simp [horaSign, hodd, hw]
    · intro hw _
      simp [horaSign, hodd, not_lt.mpr hw]
  · intro hpar
    have hodd : ODD s = false := by
      simp [ODD]
      omega
    constructor
    · intro _ hw
      simp [horaSign, hodd, hw]
    · intro hw _
      simp [horaSign, hodd, not_lt.mpr hw]

/-- Witness for C7 at concrete inputs: Aries (0, an "odd" sign) maps
its first half to Leo and second half to Cancer; Taurus (1) reversed. -/
theorem hora_parity_witness :
    horaSign 0 0 = 4 ∧ horaSign 0 20 = 3 ∧
    horaSign 1 0 = 3 ∧ horaSign 1 20 = 4 := by
  refine ⟨?_, ?_, ?_, ?_⟩
  · exact ((hora_parity 0 0).1 rfl).1 (by norm_num) (by norm_num)
  · exact ((hora_parity 0 20).1 rfl).2 (by norm_num) (by norm_num)
  · exact ((hora_parity 1 0).2 rfl).1 (by norm_num) (by norm_num)
  · exact ((hora_parity 1 20).2 rfl).2 (by norm_num) (by norm_num)

/-- C8: when the Sun or Moon longitude is absent or non-finite
(modelled as `none`), the panchanga computation yields no result at
all — `none`, never a partial record (the result type `Option
Panchanga` makes a partial record unrepresentable). -/
theorem panchanga_missing (sun moon : Option ℚ) (vara : String)
    (h : sun = none ∨ moon = none) :
    panchangaFrom sun moon vara = none := by
  rcases h with h | h
  · subst h
    cases moon <;> rfl
  · subst h
    cases sun <;> rfl

/-- Witness for C8: a concrete chart with a missing Sun longitude has
no panchanga. -/
theorem panchanga_missing_witness :
    panchangaFrom none (some 20) "Sunday" = none :=
  panchanga_missing none (some 20) "Sunday" (Or.inl rfl)

/-- C4: the tithi limb.  For all Sun/Moon longitudes, with
`diff = norm360(moon - sun)`: `tithiNumber = floor(diff/12) + 1` lies
in 1–30, the paksha is Shukla exactly when `tithiNumber ≤ 15`
(Krishna otherwise), and the name comes from the 15-entry table at
index `(tithiNumber-1) mod 15` except that index 14 under Krishna is
"Amavasya"; concretely `diff=0` gives tithi 1 Shukla "Pratipada",
`diff=180` gives tithi 16 Krishna "Pratipada", and `diff=354` gives
"Amavasya". -/
theorem tithi_spec (sun moon : ℚ) (vara : String) :
    ∃ r, panchangaFrom (some sun) (some moon) vara = some r ∧
      (r.tithiNum : ℤ) = ⌊norm360 (moon - sun) / 12⌋ + 1 ∧
      1 ≤ r.tithiNum ∧ r.tithiNum ≤ 30 ∧
      (r.paksha = "Shukla" ↔ r.tithiNum ≤ 15) ∧
      (r.paksha = "Krishna" ↔ 15 < r.tithiNum) ∧
      r.tithiName =
        (if r.tithiNum ≤ 15 then TITHI_15.getD ((r.tithiNum - 1) % 15) ""
         else if (r.tithiNum - 1) % 15 = 14 then "Amavasya"
         else TITHI_15.getD ((r.tithiNum - 1) % 15) "") ∧
      (panchangaFrom (some 0) (some 0) vara).map
          (fun p => (p.tithiNum, p.paksha, p.tithiName)) =
        some (1, "Shukla", "Pratipada") ∧
      (panchangaFrom (some 0) (some 180) vara).map
          (fun p => (p.tithiNum, p.paksha, p.tithiName)) =
        some (16, "Krishna", "Pratipada") ∧
      (panchangaFrom (some 0) (some 354) vara).map
          (fun p => (p.tithiNum, p.paksha, p.tithiName)) =
        some (30, "Krishna", "Amavasya") := by
  have hd0 : 0 ≤ norm360 (moon - sun) := norm360_nonneg _
  have hd1 : norm360 (moon - sun) < 360 := norm360_lt _
  have hfl0 : 0 ≤ ⌊norm360 (moon - sun) / 12⌋ :=
    Int.floor_nonneg.mpr (by positivity)
  have hfl1 : ⌊norm360 (moon - sun) / 12⌋ < 30 := by
    rw [Int.floor_lt]
    push_cast
    rw [div_lt_iff₀ (by norm_num : (0:ℚ) < 12)]
    linarith
  refine ⟨_, rfl, ?_, ?_, ?_, ?_, ?_, ?_, ?_, ?_, ?_⟩
  · show (((⌊norm360 (moon - sun) / 12⌋).toNat + 1 : ℕ) : ℤ) =
      ⌊norm360 (moon - sun) / 12⌋ + 1
    omega
  · show 1 ≤ (⌊norm360 (moon - sun) / 12⌋).toNat + 1
    omega
  · show (⌊norm360 (moon - sun) / 12⌋).toNat + 1 ≤ 30
    omega
  · show (if (⌊norm360 (moon - sun) / 12⌋).toNat + 1 ≤ 15
        then "Shukla" else "Krishna") = "Shukla" ↔
      (⌊norm360 (moon - sun) / 12⌋).toNat + 1 ≤ 15
    split_ifs with h <;> simp [h]
  · show (if (⌊norm360 (moon - sun) / 12⌋).toNat + 1 ≤ 15
        then "Shukla" else "Krishna") = "Krishna" ↔
      15 < (⌊norm360 (moon - sun) / 12⌋).toNat + 1
    split_ifs with h
    · simp [h]
    · simp [h]
      omega
  · show (if (if (⌊norm360 (moon - sun) / 12⌋).toNat + 1 ≤ 15
          then "Shukla" else "Krishna") = "Shukla"
        then TITHI_15.getD (((⌊norm360 (moon - sun) / 12⌋).toNat + 1 - 1) % 15) ""
        else if ((⌊norm360 (moon - sun) / 12⌋).toNat + 1 - 1) % 15 = 14
          then TITHI_15_KRISHNA_LAST
          else TITHI_15.getD (((⌊norm360 (moon - sun) / 12⌋).toNat + 1 - 1) % 15) "") =
      (if (⌊norm360 (moon - sun) / 12⌋).toNat + 1 ≤ 15
        then TITHI_15.getD (((⌊norm360 (moon - sun) / 12⌋).toNat + 1 - 1) % 15) ""
        else if ((⌊norm360 (moon - sun) / 12⌋).toNat + 1 - 1) % 15 = 14 then "Amavasya"
        else TITHI_15.getD (((⌊norm360 (moon - sun) / 12⌋).toNat + 1 - 1) % 15) "")
    split_ifs <;> simp_all [TITHI_15_KRISHNA_LAST]
  · norm_num [panchangaFrom, norm360_eq, TITHI_15]
  · norm_num [panchangaFrom, norm360_eq, TITHI_15]
    decide
  · norm_num [panchangaFrom, norm360_eq, TITHI_15, TITHI_15_KRISHNA_LAST]
    decide

/-- C5: the karana limb.  For every normalized Moon-minus-Sun
difference, `karanaIndex = floor(diff/6)` lies in 0–59; index 0 names
"Kimstughna", indices 57–59 name the fixed 3-entry ending table
["Shakuni", "Chatushpada", "Naga"] in order (index 58 is
"Chatushpada", witnessed at diff = 348), every other index names the
7-entry rotating table entry at `(index-1) mod 7`. -/
theorem karana_spec (sun moon : ℚ) (vara : String) :
    ∃ r, panchangaFrom (some sun) (some moon) vara = some r ∧
      (⌊norm360 (moon - sun) / 6⌋).toNat ≤ 59 ∧
      r.karana =
        (if (⌊norm360 (moon - sun) / 6⌋).toNat = 0 then "Kimstughna"
         else if 57 ≤ (⌊norm360 (moon - sun) / 6⌋).toNat then
           ["Shakuni", "Chatushpada", "Naga"].getD
             ((⌊norm360 (moon - sun) / 6⌋).toNat - 57) ""
         else KARANA_ROT.getD
           (((⌊norm360 (moon - sun) / 6⌋).toNat - 1) % 7) "") ∧
      (panchangaFrom (some 0) (some 0) vara).map (fun p => p.karana) =
        some "Kimstughna" ∧
      ⌊norm360 ((348 : ℚ) - 0) / 6⌋ = 58 ∧
      (panchangaFrom (some 0) (some 348) vara).map (fun p => p.karana) =
        some "Chatushpada" := by
  have hd0 : 0 ≤ norm360 (moon - sun) := norm360_nonneg _
  have hd1 : norm360 (moon - sun) < 360 := norm360_lt _
  have hfl0 : 0 ≤ ⌊norm360 (moon - sun) / 6⌋ :=
    Int.floor_nonneg.mpr (by positivity)
  have hfl1 : ⌊norm360 (moon - sun) / 6⌋ < 60 := by
    rw [Int.floor_lt]
    push_cast
    rw [div_lt_iff₀ (by norm_num : (0:ℚ) < 6)]
    linarith
  refine ⟨_, rfl, ?_, ?_, ?_, ?_, ?_⟩
  · omega
  · show (if (⌊norm360 (moon - sun) / 6⌋).toNat = 0 then "Kimstughna"
        else if 57 ≤ (⌊norm360 (moon - sun) / 6⌋).toNat then
          KARANA_END.getD ((⌊norm360 (moon - sun) / 6⌋).toNat - 57) ""
        else KARANA_ROT.getD
          (((⌊norm360 (moon - sun) / 6⌋).toNat - 1) % 7) "") = _
    rfl
  · norm_num [panchangaFrom, norm360_eq]
  · norm_num [norm360_eq]
  · norm_num [panchangaFrom, norm360_eq, KARANA_END]
    decide

/-- C6: the D9 (navamsa) mapping returns
`(base + floor(w/(30/9))) mod 12`, with base the sign itself for a
movable sign (index ≡ 0 mod 3), the 9th from it for a fixed sign
(index ≡ 1), and the 5th for a dual sign (index ≡ 2); each of the 9
parts is internally contiguous (the result depends on `w` only through
the part index), and for Aries part 0 maps to Aries and part 8 to
Sagittarius (index 8). -/
theorem navamsa_spec (s : ℕ) (w : ℚ) (hs : s < 12) (h0 : 0 ≤ w)
    (h1 : w < 30) :
    navamsaSign s w =
      ((if s % 3 = 0 then s
        else if s % 3 = 1 then (s + 8) % 12
        else (s + 4) % 12) + (⌊w / (30 / 9)⌋).toNat) % 12 ∧
    (∀ w₂ : ℚ, ⌊w₂ / (30 / 9)⌋ = ⌊w / (30 / 9)⌋ →
      navamsaSign s w₂ = navamsaSign s w) ∧
    (w < 30 / 9 → navamsaSign 0 w = 0) ∧
    (8 * (30 / 9) ≤ w → navamsaSign 0 w = 8) := by
  refine ⟨?_, ?_, ?_, ?_⟩
  · interval_cases s <;> simp [navamsaSign, QUALITY]
  · intro w₂ hw
    simp only [navamsaSign, hw]
  · intro hw
    have hfl : ⌊w / (30 / 9)⌋ = 0 := by
      rw [Int.floor_eq_iff]
      constructor
      · push_cast
        positivity
      · push_cast
        rw [div_lt_iff₀ (by norm_num : (0:ℚ) < 30 / 9)]
        linarith
    simp [navamsaSign, QUALITY, hfl]
  · intro hw
    have hfl : ⌊w / (30 / 9)⌋ = 8 := by
      rw [Int.floor_eq_iff]
      constructor
      · push_cast
        rw [le_div_iff₀ (by norm_num : (0:ℚ) < 30 / 9)]
        linarith
      · push_cast
        rw [div_lt_iff₀ (by norm_num : (0:ℚ) < 30 / 9)]
        linarith
    simp [navamsaSign, QUALITY, hfl]

/-- Witness for C6: Aries at 0° (part 0) stays Aries, Aries at 27°
(part 8) goes to Sagittarius (index 8). -/
theorem navamsa_spec_witness :
    navamsaSign 0 0 = 0 ∧ navamsaSign 0 27 = 8 := by
  constructor
  · exact (navamsa_spec 0 0 (by norm_num) (by norm_num)
      (by norm_num)).2.2.1 (by norm_num)
  · exact (navamsa_spec 0 27 (by norm_num) (by norm_num)
      (by norm_num)).2.2.2 (by norm_num)

/-- C2 counterexample: for an odd sign the D30 bands meeting at the
partition edge `within = 5` are `[0,5) → Aries (0)` (the lower band,
witnessed just below the edge) and `[5,10) → Aquarius (10)` (the upper
band, witnessed just above it); at the edge itself the code resolves
to Aquarius — the upper band — not to the lower band Aries that the
claim predicts. -/
theorem varga_edge_lower_band_cex :
    trimshamsaSign 0 (49 / 10) = 0 ∧
    trimshamsaSign 0 (51 / 10) = 10 ∧
    trimshamsaSign 0 5 = 10 ∧
    (10 : ℕ) ≠ 0 := by
  refine ⟨?_, ?_, ?_, by norm_num⟩ <;> norm_num [trimshamsaSign, ODD]

/-- `floor((k*c)/c) = k`: a degree sitting exactly on a uniform
partition edge falls in the part starting there. -/
theorem floor_cast_mul_div (k : ℕ) (c : ℚ) (hc : c ≠ 0) :
    ⌊(k : ℚ) * c / c⌋ = k := by
  rw [mul_div_assoc, div_self hc, mul_one, Int.floor_natCast]

/-- C2 amended: for every varga system, a within-sign degree lying
exactly on a partition edge resolves deterministically to the *upper*
band — the band whose half-open interval begins at that edge (floor
semantics) — and never raises: D2 at 15° takes the second-half value,
each uniform system at `k·(30/N)` takes part `k`, and D30 at
5/10/18/25 takes the band starting there. -/
theorem varga_edges (s k : ℕ) (hs : s < 12) :
    (1 ≤ k → k < 3 →
      drekkanaSign s ((k : ℚ) * 10) = (s + [0, 4, 8].getD k 0) % 12) ∧
    (1 ≤ k → k < 7 → saptamsaSign s ((k : ℚ) * (30 / 7)) =
      ((if s % 2 = 0 then s else (s + 6) % 12) + k) % 12) ∧
    (1 ≤ k → k < 9 → navamsaSign s ((k : ℚ) * (30 / 9)) =
      ((if s % 3 = 0 then s
        else if s % 3 = 1 then (s + 8) % 12
        else (s + 4) % 12) + k) % 12) ∧
    (1 ≤ k → k < 10 → dasamsaSign s ((k : ℚ) * 3) =
      ((if s % 2 = 0 then s else (s + 8) % 12) + k) % 12) ∧
    (1 ≤ k → k < 12 →
      dwadasamsaSign s ((k : ℚ) * (5 / 2)) = (s + k) % 12) ∧
    (horaSign s 15 = if s % 2 = 0 then 3 else 4) ∧
    (trimshamsaSign s 5 = if s % 2 = 0 then 10 else 9) ∧
    (trimshamsaSign s 10 = if s % 2 = 0 then 8 else 11) ∧
    (trimshamsaSign s 18 = if s % 2 = 0 then 2 else 5) ∧
    (trimshamsaSign s 25 = if s % 2 = 0 then 6 else 1) := by
  refine ⟨?_, ?_, ?_, ?_, ?_, ?_, ?_, ?_, ?_, ?_⟩
  · intro hk1 hk2
    simp [drekkanaSign, floor_cast_mul_div k 10 (by norm_num)]
  · intro hk1 hk2
    have hfl := floor_cast_mul_div k (30 / 7) (by norm_num)
    rcases Nat.mod_two_eq_zero_or_one s with hp | hp <;>
      simp [saptamsaSign, ODD, hp, hfl]
  · intro hk1 hk2
    have hfl := floor_cast_mul_div k (30 / 9) (by norm_num)
    interval_cases s <;> simp [navamsaSign, QUALITY, hfl]
  · intro hk1 hk2
    have hfl := floor_cast_mul_div k 3 (by norm_num)
    rcases Nat.mod_two_eq_zero_or_one s with hp | hp <;>
      simp [dasamsaSign, ODD, hp, hfl]
  · intro hk1 hk2
    simp [dwadasamsaSign, floor_cast_mul_div k (5 / 2) (by norm_num)]
  · rcases Nat.mod_two_eq_zero_or_one s with hp | hp <;>
      norm_num [horaSign, ODD, hp]
  · rcases Nat.mod_two_eq_zero_or_one s with hp | hp <;>
      norm_num [trimshamsaSign, ODD, hp]
  · rcases Nat.mod_two_eq_zero_or_one s with hp | hp <;>
      norm_num [trimshamsaSign, ODD, hp]
  · rcases Nat.mod_two_eq_zero_or_one s with hp | hp <;>
      norm_num [trimshamsaSign, ODD, hp]
  · rcases Nat.mod_two_eq_zero_or_one s with hp | hp <;>
      norm_num [trimshamsaSign, ODD, hp]

/-- Witness for the amended C2 at Aries and edge index 1: D3 at
exactly 10° takes the second drekkana (offset 4), D2 at exactly 15°
takes the second half, D30 at exactly 5° takes the Aquarius band. -/
theorem varga_edges_witness :
    drekkanaSign 0 ((1 : ℚ) * 10) = (0 + [0, 4, 8].getD 1 0) % 12 ∧
    horaSign 0 15 = (if 0 % 2 = 0 then 3 else 4) ∧
    trimshamsaSign 0 5 = (if 0 % 2 = 0 then 10 else 9) := by
  have h := varga_edges 0 1 (by norm_num)
  exact ⟨h.1 (by norm_num) (by norm_num), h.2.2.2.2.2.1,
    h.2.2.2.2.2.2.1⟩

theorem vargaRow_body (b : String) (deg : ℚ) : (vargaRow b deg).body = b :=
  rfl

theorem filterMap_rows_body (g : String → Option ℚ) (l : List String) :
    ((l.filterMap fun b => (g b).map (vargaRow b)).map fun r => r.body) =
      l.filter fun b => (g b).isSome := by
  induction l with
  | nil => rfl
  | cons hd tl ih =>
    cases hg : g hd <;>
      simp [List.filterMap_cons, hg, ih, vargaRow_body, List.filter_cons]

theorem lookup_eq_none_of_not_mem (n : String)
    (l : List (String × Option ℚ)) (h : n ∉ l.map Prod.fst) :
    l.lookup n = none := by
  induction l with
  | nil => rfl
  | cons hd tl ih =>
    obtain ⟨k, v⟩ := hd
    simp only [List.map_cons, List.mem_cons] at h
    push_neg at h
    obtain ⟨h1, h2⟩ := h
    rw [List.lookup_cons]
    have hb : (n == k) = false := beq_eq_false_iff_ne.mpr h1
    simp [hb, ih h2]

theorem lookup_append (a : String) (l₁ l₂ : List (String × Option ℚ)) :
    (l₁ ++ l₂).lookup a = (l₁.lookup a).or (l₂.lookup a) := by
  induction l₁ with
  | nil => simp
  | cons hd tl ih =>
    obtain ⟨k, w⟩ := hd
    rw [List.cons_append, List.lookup_cons, List.lookup_cons]
    cases hak : a == k <;> simp [ih]

theorem lookup_middle_ne (b n : String) (v : Option ℚ)
    (ps₁ ps₂ : List (String × Option ℚ)) (hne : b ≠ n) :
    (ps₁ ++ (n, v) :: ps₂).lookup b = (ps₁ ++ ps₂).lookup b := by
  induction ps₁ with
  | nil => simp [List.lookup_cons, beq_eq_false_iff_ne.mpr hne]
  | cons hd tl ih =>
    obtain ⟨k, w⟩ := hd
    rw [List.cons_append, List.lookup_cons, List.cons_append,
      List.lookup_cons]
    cases hbk : b == k <;> simp [ih]

/-- C9: the varga table builder excludes exactly the body rows whose
longitude is absent or non-finite — the row bodies are the fixed body
list filtered by presence of a finite longitude — and an entry whose
value is non-finite can be dropped from the positions record without
changing the output at all (rows of the other bodies are untouched and
the computation, being total, never fails as a whole). -/
theorem vargaPlacements_spec (ps ps₁ ps₂ : List (String × Option ℚ))
    (asc : Option ℚ) (n : String)
    (h₁ : n ∉ ps₁.map Prod.fst) (h₂ : n ∉ ps₂.map Prod.fst) :
    ((vargaPlacements ps asc).map fun r => r.body) =
      (BODIES.filter fun b => (getDeg ps asc b).isSome) ∧
    vargaPlacements (ps₁ ++ (n, none) :: ps₂) asc =
      vargaPlacements (ps₁ ++ ps₂) asc := by
  constructor
  · exact filterMap_rows_body (getDeg ps asc) BODIES
  · have hget : ∀ b, getDeg (ps₁ ++ (n, none) :: ps₂) asc b =
        getDeg (ps₁ ++ ps₂) asc b := by
      intro b
      unfold getDeg
      by_cases hasc : b = "Ascendant"
      · simp [hasc]
      · simp only [if_neg hasc]
        by_cases hbn : b = n
        · subst hbn
          rw [lookup_append, lookup_append,
            lookup_eq_none_of_not_mem b ps₁ h₁,
            lookup_eq_none_of_not_mem b ps₂ h₂]
          simp [List.lookup_cons]
        · rw [lookup_middle_ne b n none ps₁ ps₂ hbn]
    have hfun : (fun b => (getDeg (ps₁ ++ (n, none) :: ps₂) asc b).map
          (vargaRow b)) =
        fun b => (getDeg (ps₁ ++ ps₂) asc b).map (vargaRow b) := by
      funext b
      rw [hget b]
    simp only [vargaPlacements]
    rw [hfun]

/-- Witness for C9: with only the Sun present, the rows are Ascendant
and Sun, and adding a non-finite Moon entry changes nothing. -/
theorem vargaPlacements_spec_witness :
    ((vargaPlacements [("Sun", some 10)] (some 100)).map
        fun r => r.body) =
      (BODIES.filter
        fun b => (getDeg [("Sun", some 10)] (some 100) b).isSome) ∧
    vargaPlacements [("Moon", none), ("Sun", some 10)] (some 100) =
      vargaPlacements [("Sun", some 10)] (some 100) :=
  vargaPlacements_spec [("Sun", some 10)] [] [("Sun", some 10)]
    (some 100) "Moon" (by decide) (by decide)

theorem aspects_disjoint_core (d : ℚ) (A B : AspectDef)
    (hA : A ∈ ASPECTS_DEF) (hB : B ∈ ASPECTS_DEF)
    (h1 : |d - A.angle| ≤ A.orb) (h2 : |d - B.angle| ≤ B.orb) :
    A = B := by
  rw [abs_le] at h1 h2
  fin_cases hA <;> fin_cases hB <;>
    first
      | rfl
      | (exfalso
         simp only at h1 h2
         obtain ⟨h1a, h1b⟩ := h1
         obtain ⟨h2a, h2b⟩ := h2
         linarith)

theorem aspects_find_perm (d : ℚ) (l : List AspectDef)
    (hl : l.Perm ASPECTS_DEF) :
    l.find? (fun A => decide (|d - A.angle| ≤ A.orb)) =
      ASPECTS_DEF.find? (fun A => decide (|d - A.angle| ≤ A.orb)) := by
  rcases h : ASPECTS_DEF.find? (fun A => decide (|d - A.angle| ≤ A.orb))
    with _ | A
  · rw [h, List.find?_eq_none]
    rw [List.find?_eq_none] at h
    intro x hx
    exact h x (hl.mem_iff.mp hx)
  · have hpA := List.find?_some h
    have hmemA := List.mem_of_find?_eq_some h
    rcases hB : l.find? (fun A => decide (|d - A.angle| ≤ A.orb))
      with _ | B
    · exfalso
      rw [List.find?_eq_none] at hB
      exact hB A (hl.mem_iff.mpr hmemA) hpA
    · have hpB := List.find?_some hB
      have hmemB := List.mem_of_find?_eq_some hB
      rw [hB, h, aspects_disjoint_core d B A (hl.mem_iff.mp hmemB) hmemA
        (of_decide_eq_true hpB) (of_decide_eq_true hpA)]

theorem angDiff_bounds (a b : ℚ) :
    0 ≤ angDiff a b ∧ angDiff a b ≤ 180 := by
  have n0a := norm360_nonneg a
  have n1a := norm360_lt a
  have n0b := norm360_nonneg b
  have n1b := norm360_lt b
  simp only [angDiff]
  have h1 : 0 ≤ |norm360 a - norm360 b| := abs_nonneg _
  have h2 : |norm360 a - norm360 b| < 360 := by
    rw [abs_lt]
    constructor <;> linarith
  constructor
  · exact le_min h1 (by linarith)
  · rcases le_or_lt |norm360 a - norm360 b| 180 with h | h
    · exact (min_le_left _ _).trans h
    · exact (min_le_right _ _).trans (by linarith)

theorem ascAspectFor_body (asc : ℚ) (nd : String × Option ℚ)
    (r : AspectPair) (h : ascAspectFor asc nd = some r) : r.b = nd.1 := by
  rcases h2 : nd.2 with _ | deg
  · rw [ascAspectFor, h2] at h
    simp at h
  · rw [ascAspectFor, h2] at h
    simp only [Option.some_bind] at h
    rcases hfind : ASPECTS_DEF.find?
        (fun A => decide (|angDiff asc deg - A.angle| ≤ A.orb))
      with _ | A
    · rw [hfind] at h
      simp at h
    · rw [hfind] at h
      simp only [Option.map_some'] at h
      rw [← Option.some.inj h]

theorem mem_deriveAscAspects_body (asc : ℚ)
    (ps : List (String × Option ℚ)) (p : AspectPair)
    (hp : p ∈ deriveAscAspects asc ps) : p.b ∈ ps.map Prod.fst := by
  rw [deriveAscAspects, List.mem_filterMap] at hp
  obtain ⟨nd, hnd, hF⟩ := hp
  rw [List.mem_map]
  exact ⟨nd, hnd, (ascAspectFor_body asc nd p hF).symm⟩

theorem deriveAsc_per_body (asc : ℚ) (ps : List (String × Option ℚ))
    (n : String) (hnd : (ps.map Prod.fst).Nodup) :
    ((deriveAscAspects asc ps).filter
      fun p => decide (p.b = n)).length ≤ 1 := by
  induction ps with
  | nil => simp [deriveAscAspects]
  | cons hd tl ih =>
    simp only [List.map_cons, List.nodup_cons] at hnd
    obtain ⟨hhd, htl⟩ := hnd
    simp only [deriveAscAspects, List.filterMap_cons]
    rcases hF : ascAspectFor asc hd with _ | r
    · exact ih htl
    · simp only [List.filter_cons]
      by_cases hrb : r.b = n
      · have hempty : (deriveAscAspects asc tl).filter
            (fun p => decide (p.b = n)) = [] := by
          rw [List.filter_eq_nil_iff]
          intro q hq
          have hqmem := mem_deriveAscAspects_body asc tl q hq
          have hrhd : r.b = hd.1 := ascAspectFor_body asc hd r hF
          simp only [decide_eq_true_eq]
          intro hqb
          rw [hqb, ← hrb, hrhd] at hqmem
          exact hhd hqmem
        simp only [deriveAscAspects] at hempty
        simp [hrb, hempty]
      · simp only [decide_eq_true_eq, hrb, if_false]
        exact ih htl

/-- C10: the five aspect orb windows are pairwise disjoint, so an
angular distance matches at most one aspect definition and the
first-match search is independent of the order the definitions are
tried; the angular distance always lies in [0,180]; and with distinct
body names the ascendant-aspect detector emits at most one record per
body. -/
theorem aspect_uniqueness (d asc : ℚ) (ps : List (String × Option ℚ))
    (n : String) (hnd : (ps.map Prod.fst).Nodup) :
    (∀ A ∈ ASPECTS_DEF, ∀ B ∈ ASPECTS_DEF,
      |d - A.angle| ≤ A.orb → |d - B.angle| ≤ B.orb → A = B) ∧
    (∀ l : List AspectDef, l.Perm ASPECTS_DEF →
      l.find? (fun A => decide (|d - A.angle| ≤ A.orb)) =
        ASPECTS_DEF.find? (fun A => decide (|d - A.angle| ≤ A.orb))) ∧
    (0 ≤ angDiff asc d ∧ angDiff asc d ≤ 180) ∧
    ((deriveAscAspects asc ps).filter
      fun p => decide (p.b = n)).length ≤ 1 :=
  ⟨fun A hA B hB h1 h2 => aspects_disjoint_core d A B hA hB h1 h2,
   fun l hl => aspects_find_perm d l hl,
   angDiff_bounds asc d,
   deriveAsc_per_body asc ps n hnd⟩

/-- Witness for C10 with a single body at 280° seen from ascendant
100° (the spec's exact-opposition example). -/
theorem aspect_uniqueness_witness :
    ((deriveAscAspects 100 [("Mars", some 280)]).filter
      fun p => decide (p.b = "Mars")).length ≤ 1 ∧
    0 ≤ angDiff 100 280 ∧ angDiff 100 280 ≤ 180 := by
  have h := aspect_uniqueness 280 100 [("Mars", some 280)] "Mars"
    (by decide)
  exact ⟨h.2.2.2, h.2.2.1⟩

theorem find?_map_replace_ne (m : List (String × AspectPair))
    (k' : String) (v : AspectPair) (k : String) (hkk : k ≠ k') :
    (m.map fun e => if e.1 = k' then (k', v) else e).find?
        (fun e => decide (e.1 = k)) =
      m.find? fun e => decide (e.1 = k) := by
  induction m with
  | nil => rfl
  | cons hd tl ih =>
    simp only [List.map_cons]
    by_cases h : hd.1 = k'
    · rw [if_pos h]
      rw [List.find?_cons_of_neg _ (by simp [Ne.symm hkk]),
        List.find?_cons_of_neg _ (by simp [h, Ne.symm hkk])]
      exact ih
    · rw [if_neg h]
      by_cases hk : hd.1 = k
      · rw [List.find?_cons_of_pos _ (by simp [hk]),
          List.find?_cons_of_pos _ (by simp [hk])]
      · rw [List.find?_cons_of_neg _ (by simp [hk]),
          List.find?_cons_of_neg _ (by simp [hk])]
        exact ih

theorem find?_map_replace_hit (m : List (String × AspectPair))
    (k' : String) (v : AspectPair)
    (h : m.any (fun e => decide (e.1 = k')) = true) :
    (m.map fun e => if e.1 = k' then (k', v) else e).find?
        (fun e => decide (e.1 = k')) = some (k', v) := by
  induction m with
  | nil => simp at h
  | cons hd tl ih =>
    simp only [List.map_cons]
    by_cases hh : hd.1 = k'
    · rw [if_pos hh]
      rw [List.find?_cons_of_pos _ (by simp)]
    · rw [if_neg hh]
      rw [List.find?_cons_of_neg _ (by simp [hh])]
      apply ih
      simp only [List.any_cons, Bool.or_eq_true, decide_eq_true_eq]
        at h
      rcases h with h | h
      · exact absurd h hh
      · exact h

theorem afind_mset (m : List (String × AspectPair)) (k' : String)
    (v : AspectPair) (k : String) :
    afind (msetLWW m k' v) k =
      if k = k' then some v else afind m k := by
  unfold msetLWW afind
  by_cases hany : m.any (fun e => decide (e.1 = k')) = true
  · rw [if_pos hany]
    by_cases hk : k = k'
    · subst hk
      rw [find?_map_replace_hit m k v hany]
      simp
    · rw [find?_map_replace_ne m k' v k hk, if_neg hk]
  · rw [if_neg hany]
    rw [List.find?_append]
    have hnone : m.find? (fun e => decide (e.1 = k')) = none := by
      rw [List.find?_eq_none]
      intro x hx
      rw [Bool.not_eq_true]
      rw [List.any_eq_true] at hany
      push_neg at hany
      simpa using hany x hx
    by_cases hk : k = k'
    · subst hk
      rw [hnone]
      simp
    · rw [if_neg hk]
      have : ([(k', v)].find? fun e => decide (e.1 = k)) = none := by
        simp [Ne.symm hk]
      rw [this, Option.or_none]

theorem getLast?_cons_of_some {α : Type} (a : α) (l : List α) (w : α)
    (h : l.getLast? = some w) : (a :: l).getLast? = some w := by
  cases l with
  | nil => simp at h
  | cons x xs =>
    rw [List.getLast?_cons_cons]
    exact h

theorem afind_foldl (l : List AspectPair) :
    ∀ (m : List (String × AspectPair)) (k : String),
      afind (l.foldl (fun m p => msetLWW m (mkey p) p) m) k =
        (lastWithKey l k).elim (afind m k) some := by
  induction l with
  | nil =>
    intro m k
    rfl
  | cons p l ih =>
    intro m k
    rw [List.foldl_cons, ih (msetLWW m (mkey p) p) k, afind_mset]
    by_cases hk : k = mkey p
    · subst hk
      rw [if_pos rfl]
      unfold lastWithKey
      rw [List.filter_cons, if_pos (by simp)]
      rcases hll : (l.filter fun q => decide (mkey q = mkey p)).getLast?
        with _ | w
      · rw [List.getLast?_eq_none_iff] at hll
        rw [hll]
        simp [lastWithKey, hll]
      · rw [getLast?_cons_of_some p _ w hll]
        simp [lastWithKey, hll]
    · rw [if_neg hk]
      unfold lastWithKey
      rw [List.filter_cons,
        if_neg (by simp only [decide_eq_true_eq]
                   exact fun h => hk h.symm)]

theorem goodMap_mset (m : List (String × AspectPair)) (k' : String)
    (v : AspectPair) (hm : goodMap m) (hv : mkey v = k') :
    goodMap (msetLWW m k' v) := by
  unfold msetLWW
  by_cases hany : m.any (fun e => decide (e.1 = k')) = true
  · rw [if_pos hany]
    constructor
    · rw [List.map_map]
      have : ((fun e : String × AspectPair => e.1) ∘
          fun e => if e.1 = k' then (k', v) else e) =
          fun e : String × AspectPair => e.1 := by
        funext e
        simp only [Function.comp]
        split_ifs with h
        · exact h.symm
        · rfl
      rw [this]
      exact hm.1
    · intro e he
      rw [List.mem_map] at he
      obtain ⟨e₀, he₀, hfe⟩ := he
      by_cases h : e₀.1 = k'
      · rw [if_pos h] at hfe
        rw [← hfe]
        exact hv
      · rw [if_neg h] at hfe
        rw [← hfe]
        exact hm.2 e₀ he₀
  · rw [if_neg hany]
    have hfresh : k' ∉ m.map Prod.fst := by
      intro hmem
      rw [List.mem_map] at hmem
      obtain ⟨e, he, hke⟩ := hmem
      apply hany
      rw [List.any_eq_true]
      exact ⟨e, he, by simp [hke]⟩
    constructor
    · rw [List.map_append]
      simp only [List.map_cons, List.map_nil]
      rw [List.nodup_append]
      exact ⟨hm.1, List.nodup_singleton _,
        by simpa [List.disjoint_singleton] using hfresh⟩
    · intro e he
      rw [List.mem_append] at he
      rcases he with he | he
      · exact hm.2 e he
      · simp only [List.mem_singleton] at he
        rw [he]
        exact hv

theorem goodMap_foldl (l : List AspectPair) :
    ∀ m, goodMap m →
      goodMap (l.foldl (fun m p => msetLWW m (mkey p) p) m) := by
  induction l with
  | nil => exact fun m hm => hm
  | cons p l ih =>
    intro m hm
    rw [List.foldl_cons]
    exact ih _ (goodMap_mset m (mkey p) p hm rfl)

theorem find?_entry_key (m : List (String × AspectPair)) (k : String)
    (hinv : ∀ e ∈ m, mkey e.2 = e.1) :
    m.find? (fun e => decide (mkey e.2 = k)) =
      m.find? fun e => decide (e.1 = k) := by
  induction m with
  | nil => rfl
  | cons hd tl ih =>
    have hhd := hinv hd (List.mem_cons_self _ _)
    by_cases h : hd.1 = k
    · rw [List.find?_cons_of_pos _ (by simp [hhd, h]),
        List.find?_cons_of_pos _ (by simp [h])]
    · rw [List.find?_cons_of_neg _ (by simp [hhd, h]),
        List.find?_cons_of_neg _ (by simp [h])]
      exact ih fun e he => hinv e (List.mem_cons_of_mem _ he)

/-- C1 counterexample: the merge key is the *ordered* triple — two
records that differ only by swapping `a` and `b` produce different
keys and do **not** collide: merging them keeps both records, where
the claim predicts one to overwrite the other. -/
theorem merge_unordered_key_cex :
    mkey ⟨"Sun", "Moon", "Trine", 0⟩ ≠ mkey ⟨"Moon", "Sun", "Trine", 0⟩ ∧
    mergeAspects [⟨"Sun", "Moon", "Trine", 0⟩]
        [⟨"Moon", "Sun", "Trine", 0⟩] =
      [⟨"Sun", "Moon", "Trine", 0⟩, ⟨"Moon", "Sun", "Trine", 0⟩] := by
  constructor
  · decide
  · rfl

/-- C1 amended: `mergeAspects` deduplicates by the *ordered* key
`bodyA|aspectType|bodyB`: the output carries pairwise-distinct keys,
and the value surviving under any key is the last record with that key
in the concatenation `existing ++ ascOnes` — later insertions
overwrite earlier ones on (ordered-)key collision. -/
theorem mergeAspects_lww (existing ascOnes : List AspectPair)
    (k : String) :
    ((mergeAspects existing ascOnes).map mkey).Nodup ∧
    (mergeAspects existing ascOnes).find?
        (fun p => decide (mkey p = k)) =
      ((existing ++ ascOnes).filter
        fun p => decide (mkey p = k)).getLast? := by
  have hfold : ascOnes.foldl (fun m p => msetLWW m (mkey p) p)
      (existing.foldl (fun m p => msetLWW m (mkey p) p) []) =
      (existing ++ ascOnes).foldl
        (fun m p => msetLWW m (mkey p) p) [] :=
    (List.foldl_append _ _ _ _).symm
  have hgood : goodMap ((existing ++ ascOnes).foldl
      (fun m p => msetLWW m (mkey p) p) []) :=
    goodMap_foldl (existing ++ ascOnes) [] ⟨List.nodup_nil, by simp⟩
  have hmerge : mergeAspects existing ascOnes =
      ((existing ++ ascOnes).foldl
        (fun m p => msetLWW m (mkey p) p) []).map fun e => e.2 := by
    show (ascOnes.foldl (fun m p => msetLWW m (mkey p) p)
        (existing.foldl (fun m p => msetLWW m (mkey p) p) [])).map
        (fun e => e.2) = _
    rw [hfold]
  constructor
  · rw [hmerge, List.map_map]
    have hcongr : ((existing ++ ascOnes).foldl
          (fun m p => msetLWW m (mkey p) p) []).map
          (mkey ∘ fun e : String × AspectPair => e.2) =
        ((existing ++ ascOnes).foldl
          (fun m p => msetLWW m (mkey p) p) []).map Prod.fst :=
      List.map_congr_left fun e he => hgood.2 e he
    rw [hcongr]
    exact hgood.1
  · rw [hmerge, List.find?_map]
    have hcomp : ((fun p => decide (mkey p = k)) ∘
        fun e : String × AspectPair => e.2) =
        fun e : String × AspectPair => decide (mkey e.2 = k) := rfl
    rw [hcomp, find?_entry_key _ k hgood.2]
    have haf := afind_foldl (existing ++ ascOnes) [] k
    unfold afind at haf
    rw [haf]
    unfold lastWithKey
    rcases ((existing ++ ascOnes).filter
        fun p => decide (mkey p = k)).getLast? with _ | w <;> rfl

end Jathakam
